import Mathlib

/-!
Shallow embedding of the bulk-import pipeline of the FastApi-Angular
repository (backend/app/tasks.py and backend/app/main.py), together with
proofs of the specification claims about it.

The embedding models:
* Python string primitives used by the import loop (`str.strip`,
  `str.lower`, `str()` applied to a pandas cell),
* the IEEE-754 binary64 evaluation of the percent expression
  `int((current / total) * 100)` from tasks.py,
* the Celery task `process_excel_task` (pre-scan counting, row loop,
  skip reasons, chunked commits, published progress events),
* the sheet counting of `process_excel_preview_task`,
* the WebSocket `ConnectionManager` (`broadcast` / `disconnect`) and the
  `redis_listener` relay loop from main.py.
-/

namespace ExcelImport

/-! ### Python string primitives -/

/-- ASCII whitespace, as stripped by Python `str.strip()`. -/
def isPySpace (c : Char) : Bool :=
  c = ' ' || c = '\t' || c = '\n' || c = '\r' || c = '\x0b' || c = '\x0c'

/-- Python `str.strip()`: remove leading and trailing whitespace. -/
def pyStrip (s : String) : String :=
  String.mk (((s.data.dropWhile isPySpace).reverse.dropWhile isPySpace).reverse)

/-- ASCII lower-casing of one character, as in Python `str.lower()` on
ASCII column names. -/
def lowerChar (c : Char) : Char :=
  if 65 ≤ c.toNat && c.toNat ≤ 90 then Char.ofNat (c.toNat + 32) else c

/-- Python `str.lower()` (restricted to ASCII, which covers the column
names the importer compares). -/
def pyLower (s : String) : String :=
  String.mk (s.data.map lowerChar)

/-- A spreadsheet cell as pandas hands it to the row loop: `none` is an
empty cell (pandas `NaN`), `some s` a cell whose `str()` rendering is `s`.
Python `str(nan)` is the four-character string `nan`, which is what the
row loop of tasks.py actually sees for an empty cell. -/
def cellStr : Option String → String
  | none => "nan"
  | some s => s

/-! ### IEEE-754 binary64 model of the percent expression

tasks.py line 125 computes `percent = int((current / total) * 100)` with
Python floats.  `current / total` and the product by 100 are each the
exactly-rounded (round-to-nearest, ties-to-even) binary64 result, and
`int` truncates toward zero.  All values in the task are nonnegative and
in the normal range, so we model a binary64 value as an exact dyadic
fraction of naturals and implement the rounding with integer
arithmetic only. -/

/-- Fuel-driven binary logarithm: `log2fuel fuel n = ⌊log₂ n⌋` for
`n ≥ 1` whenever `fuel ≥ ⌊log₂ n⌋`, by structural recursion on the
fuel. -/
def log2fuel : ℕ → ℕ → ℕ
  | 0, _ => 0
  | fuel + 1, n => if n ≤ 1 then 0 else log2fuel fuel (n / 2) + 1

/-- `⌊log₂ n⌋` for `n ≥ 1` (and `0` for `n = 0`). -/
def natLog2 (n : ℕ) : ℕ := log2fuel n n

/-- Decide `2 ^ e ≤ a / b` for naturals `a, b > 0` and an integer
exponent `e`, by shifting one side. -/
def le2pow (e : ℤ) (a b : ℕ) : Bool :=
  if 0 ≤ e then b * 2 ^ e.toNat ≤ a else b ≤ a * 2 ^ (-e).toNat

/-- The binary exponent of the positive fraction `a / b`: the unique `e`
with `2 ^ e ≤ a / b < 2 ^ (e + 1)`.  Computed from `Nat.log2` of
numerator and denominator and corrected by at most one. -/
def floorLog2 (a b : ℕ) : ℤ :=
  let e0 : ℤ := (natLog2 a : ℤ) - (natLog2 b : ℤ)
  if le2pow (e0 + 1) a b then e0 + 1
  else if le2pow e0 a b then e0
  else e0 - 1

/-- Round the integer quotient `num / den` to the nearest integer, ties
to even. -/
def natRoundHalfEven (num den : ℕ) : ℕ :=
  let n := num / den
  let r := num % den
  if 2 * r < den then n
  else if den < 2 * r then n + 1
  else if n % 2 = 0 then n else n + 1

/-- Round the nonnegative fraction `a / b` to the nearest binary64 value
(round-to-nearest, ties-to-even, 53-bit significand; normal range).
The result is returned as an exact fraction (numerator, denominator)
of naturals, the denominator a power of two. -/
def roundB64 (a b : ℕ) : ℕ × ℕ :=
  if a = 0 then (0, 1)
  else
    let k : ℤ := 52 - floorLog2 a b
    if 0 ≤ k then
      (natRoundHalfEven (a * 2 ^ k.toNat) b, 2 ^ k.toNat)
    else
      (natRoundHalfEven a (b * 2 ^ (-k).toNat) * 2 ^ (-k).toNat, 1)

/-- The percent value published by tasks.py line 125:
`int((current / total) * 100)` evaluated in binary64 floating point.
(With `total = 0` Python would raise `ZeroDivisionError`; the task never
evaluates the expression then — see claim C5 — and the model returns 0.) -/
def pyPercent (current total : ℕ) : ℕ :=
  if total = 0 then 0
  else
    let q := roundB64 current total
    let p := roundB64 (q.1 * 100) q.2
    p.1 / p.2

/-- The exact integer percent `floor(current * 100 / total)` that the
spec prescribes (natural-number division). -/
def specPercent (current total : ℕ) : ℕ := current * 100 / total

/-! ### Data model

A sheet is what `pd.read_excel` returns for one sheet name: its column
header list and its rows.  Only the three columns the importer reads are
modelled per row; a cell is `none` when empty (pandas `NaN`). -/

/-- One spreadsheet row, restricted to the three columns the import
loop reads.  `none` is an empty cell (`NaN`). -/
structure Row where
  username : Option String
  email : Option String
  password : Option String
deriving DecidableEq, Repr

/-- One sheet of the uploaded workbook: name, column header list, rows
(in sheet order, 0-based positional index as pandas `iterrows` yields). -/
structure Sheet where
  name : String
  columns : List String
  rows : List Row
deriving DecidableEq, Repr

/-- A user record as staged/inserted into the `users` table. -/
structure UserRec where
  username : String
  email : String
  password_hash : String
deriving DecidableEq, Repr

/-- One entry of the `skipped` list:
`{"row": i + 1, "sheet": sheet_name, "reason": ...}`. -/
structure Skip where
  row : ℕ
  sheet : String
  reason : String
deriving DecidableEq, Repr

/-- The SQLAlchemy session: rows already committed to the database and
rows staged by `session.add` but not yet committed.  The session is
created with the default `autoflush=True`, so a query flushes pending
adds first and sees them inside the open transaction. -/
structure Session where
  committed : List UserRec
  pending : List UserRec
deriving DecidableEq, Repr

/-- `session.query(User).filter(User.email == email).first()`.
With autoflush, the lookup sees committed rows and rows staged earlier
in the same session. -/
def queryByEmail (s : Session) (email : String) : Option UserRec :=
  (s.committed ++ s.pending).find? (fun u => u.email == email)

/-- `session.add(new_user)`. -/
def sessionAdd (s : Session) (u : UserRec) : Session :=
  { s with pending := s.pending ++ [u] }

/-- `session.commit()`. -/
def sessionCommit (s : Session) : Session :=
  { committed := s.committed ++ s.pending, pending := [] }

/-- `bcrypt.hashpw(password, bcrypt.gensalt())`: bcrypt is an external
collaborator (out of scope per the spec); modelled as an opaque-to-the-
claims deterministic tag.  No claim depends on the hash value. -/
def hashpw (password : String) : String := "bcrypt$" ++ password

/-- A message published on the `progress_channel` by the import task. -/
inductive Event where
  | progress (current total percent : ℕ)
  | completed (inserted : ℕ) (skipped : List Skip)
deriving DecidableEq, Repr

/-! ### The import task (tasks.py, `process_excel_task`) -/

/-- The required-column check of tasks.py lines 108-110:
lower-case the headers and require
`{"username", "email", "password"} ⊆ columns`. -/
def sheetMatches (s : Sheet) : Bool :=
  let cols := s.columns.map pyLower
  cols.contains "username" && cols.contains "email" && cols.contains "password"

/-- The pre-scan of tasks.py lines 105-111: `total` is the sum of
`len(df)` over the selected sheets whose columns include the required
set.  (No empty-row dropping happens here.) -/
def totalCount : List Sheet → ℕ
  | [] => 0
  | s :: rest => (if sheetMatches s then s.rows.length else 0) + totalCount rest

/-- The mutable state threaded through the row loop. -/
structure LoopState where
  current : ℕ
  inserted : ℕ
  skipped : List Skip
  session : Session
  events : List Event
deriving Repr

/-- `str(row["username"]).strip()` (tasks.py line 137). -/
def rowUsername (r : Row) : String := pyStrip (cellStr r.username)

/-- `str(row["email"]).strip()` (tasks.py line 138). -/
def rowEmail (r : Row) : String := pyStrip (cellStr r.email)

/-- `str(row["password"]).strip()` (tasks.py line 139). -/
def rowPassword (r : Row) : String := pyStrip (cellStr r.password)

/-- The body of the row loop of tasks.py lines 122-156 for one row:
publish the progress event, trim the three fields, skip on incomplete
fields, skip on duplicate email, otherwise hash and stage the user and
commit every 50 inserts. -/
def processRow (total : ℕ) (sheetName : String) (i : ℕ) (row : Row)
    (st : LoopState) : LoopState :=
  let current := st.current + 1
  let events := st.events ++ [Event.progress current total (pyPercent current total)]
  let username := rowUsername row
  let email := rowEmail row
  let password := rowPassword row
  if username = "" || email = "" || password = "" then
    { st with current := current, events := events,
              skipped := st.skipped ++ [⟨i + 1, sheetName, "Campos incompletos"⟩] }
  else if (queryByEmail st.session email).isSome then
    { st with current := current, events := events,
              skipped := st.skipped ++ [⟨i + 1, sheetName, "Duplicado"⟩] }
  else
    let u : UserRec := ⟨username, email, hashpw password⟩
    let session := sessionAdd st.session u
    let inserted := st.inserted + 1
    let session := if inserted % 50 = 0 then sessionCommit session else session
    { st with current := current, events := events,
              inserted := inserted, session := session }

/-- Iterate the row loop over the rows of one sheet, `i` the pandas
positional index of the first row of `rows`. -/
def processRows (total : ℕ) (sheetName : String) (i : ℕ) :
    List Row → LoopState → LoopState
  | [], st => st
  | r :: rs, st => processRows total sheetName (i + 1) rs (processRow total sheetName i r st)

/-- One iteration of the sheet loop (tasks.py lines 114-120): a sheet
without the required columns is skipped with a warning, otherwise its
rows are processed in order. -/
def processSheet (total : ℕ) (s : Sheet) (st : LoopState) : LoopState :=
  if sheetMatches s then processRows total s.name 0 s.rows st else st

/-- The sheet loop over the selected sheets. -/
def processSheets (total : ℕ) : List Sheet → LoopState → LoopState
  | [], st => st
  | s :: rest, st => processSheets total rest (processSheet total s st)

/-- What one run of the task produces: the SUCCESS return value fields,
the final database contents and every event published on
`progress_channel`, in publication order. -/
structure RunResult where
  inserted : ℕ
  skipped : List Skip
  events : List Event
  db : List UserRec
  status : String
deriving Repr

/-- `process_excel_task` (tasks.py lines 84-167) on the selected sheets
of an uploaded workbook, starting from database contents `db`:
pre-scan the selected sheets for `total`, run the row loop, commit the
remaining staged inserts, publish the `completed` event and return the
SUCCESS payload. -/
def process_excel_task (db : List UserRec) (sheets : List Sheet) : RunResult :=
  let total := totalCount sheets
  let init : LoopState := ⟨0, 0, [], ⟨db, []⟩, []⟩
  let fin := processSheets total sheets init
  let ses := sessionCommit fin.session
  { inserted := fin.inserted
    skipped := fin.skipped
    events := fin.events ++ [Event.completed fin.inserted fin.skipped]
    db := ses.committed
    status := "completed" }

/-! ### The preview task (tasks.py, `process_excel_preview_task`) -/

/-- The required-column check of the preview task (tasks.py line 207):
headers are additionally stripped before lower-casing. -/
def previewMatches (s : Sheet) : Bool :=
  let cols := s.columns.map (fun c => pyLower (pyStrip c))
  cols.contains "username" && cols.contains "email" && cols.contains "password"

/-- A row every modelled cell of which is empty (`NaN`), i.e. a row that
`df[list(required_columns)].dropna(how='all')` removes. -/
def rowAllEmpty (r : Row) : Bool :=
  r.username.isNone && r.email.isNone && r.password.isNone

/-- The `total_rows` figure of the preview task (tasks.py lines
210-218): after selecting the required columns and dropping rows whose
cells are all empty, the remaining row count. -/
def previewTotalRows (s : Sheet) : ℕ :=
  (s.rows.filter (fun r => !rowAllEmpty r)).length

/-! ### The WebSocket connection manager (main.py, `ConnectionManager`)

A live connection is identified by an opaque identifier.  Whether the
send to a given connection raises is summarised by a predicate
`fails`. -/

/-- An opaque WebSocket connection identity. -/
abbrev Conn := ℕ

/-- The manager state: `self.active_connections`. -/
structure ManagerState where
  active : List Conn
deriving DecidableEq, Repr

/-- `ConnectionManager.disconnect` (main.py lines 88-93):
`list.remove` deletes the first occurrence; a `ValueError` for an absent
element is swallowed. -/
def disconnect (st : ManagerState) (ws : Conn) : ManagerState :=
  { active := st.active.erase ws }

/-- The loop body of `ConnectionManager.broadcast` over the snapshot
`list(self.active_connections)`: a failing send disconnects that
connection, a successful send appends it to the delivered list. -/
def broadcastAux (fails : Conn → Bool) :
    List Conn → ManagerState → List Conn → ManagerState × List Conn
  | [], st, delivered => (st, delivered)
  | ws :: rest, st, delivered =>
    if fails ws then broadcastAux fails rest (disconnect st ws) delivered
    else broadcastAux fails rest st (delivered ++ [ws])

/-- `ConnectionManager.broadcast` (main.py lines 95-106): iterate over a
snapshot of the registry, send to each connection, and on a per-send
exception disconnect just that connection and keep going.  Returns the
final registry state and the connections the message reached, in send
order. -/
def broadcast (fails : Conn → Bool) (st : ManagerState) : ManagerState × List Conn :=
  broadcastAux fails st.active st []

/-! ### The Redis listener relay (main.py, `redis_listener`) -/

/-- One item yielded by `pubsub.listen()`: its `type` field and, for the
`data` field, the result `json.loads` would produce on it — `none` when
the payload is malformed (a `JSONDecodeError`).  `Payload` stands for
the decoded JSON value; its structure is irrelevant to the relay, which
forwards it verbatim. -/
structure RedisMsg (Payload : Type) where
  msgType : String
  decoded : Option Payload

/-- The body of the `async for` loop of `redis_listener` (main.py lines
140-150): non-`message` items are ignored; a malformed payload is
logged and dropped; a well-formed payload is handed verbatim to
`ws_manager.broadcast`.  `out` accumulates the broadcast payloads. -/
def relayStep {Payload : Type} (out : List Payload) (m : RedisMsg Payload) :
    List Payload :=
  if m.msgType == "message" then
    match m.decoded with
    | some d => out ++ [d]
    | none => out
  else out

/-- The relay loop over a finite prefix of the subscription stream:
every received item is processed in order and the loop never exits on a
malformed item. -/
def relayRun {Payload : Type} (msgs : List (RedisMsg Payload)) : List Payload :=
  msgs.foldl relayStep []

/-! ### Basic lemmas about the row loop -/

/-- A row the loop does not skip: all three fields nonempty after
trimming. -/
def validRow (r : Row) : Prop :=
  rowUsername r ≠ "" ∧ rowEmail r ≠ "" ∧ rowPassword r ≠ ""

instance (r : Row) : Decidable (validRow r) := by
  unfold validRow; infer_instance

theorem processRow_current (t : ℕ) (n : String) (i : ℕ) (r : Row) (st : LoopState) :
    (processRow t n i r st).current = st.current + 1 := by
  simp only [processRow]
  split
  · rfl
  · split <;> rfl

theorem processRow_events (t : ℕ) (n : String) (i : ℕ) (r : Row) (st : LoopState) :
    (processRow t n i r st).events =
      st.events ++ [Event.progress (st.current + 1) t (pyPercent (st.current + 1) t)] := by
  simp only [processRow]
  split
  · rfl
  · split <;> rfl

theorem processRow_count (t : ℕ) (n : String) (i : ℕ) (r : Row) (st : LoopState) :
    (processRow t n i r st).inserted + (processRow t n i r st).skipped.length =
      st.inserted + st.skipped.length + 1 := by
  simp only [processRow]
  split
  · simp only [List.length_append, List.length_cons, List.length_nil]
    omega
  · split
    · simp only [List.length_append, List.length_cons, List.length_nil]
      omega
    · simp only []
      omega

/-- The progress events published for currents `a, a+1, …, a+len-1`
against a fixed total `t`. -/
def progressEvents (t a len : ℕ) : List Event :=
  (List.range' a len).map (fun c => Event.progress c t (pyPercent c t))

theorem progressEvents_succ (t a len : ℕ) :
    progressEvents t a (len + 1) =
      Event.progress a t (pyPercent a t) :: progressEvents t (a + 1) len := by
  simp [progressEvents, List.range'_succ]

theorem progressEvents_append (t a m k : ℕ) :
    progressEvents t a m ++ progressEvents t (a + m) k = progressEvents t a (m + k) := by
  have h := List.range'_append a m k 1
  simp only [one_mul] at h
  simp [progressEvents, ← List.map_append, h, Nat.add_comm k m]

theorem processRows_current (t : ℕ) (n : String) (l : List Row) :
    ∀ (i : ℕ) (st : LoopState),
      (processRows t n i l st).current = st.current + l.length := by
  induction l with
  | nil => intro i st; rfl
  | cons r rs ih =>
    intro i st
    simp only [processRows, ih, processRow_current, List.length_cons]
    omega

theorem processRows_events (t : ℕ) (n : String) (l : List Row) :
    ∀ (i : ℕ) (st : LoopState),
      (processRows t n i l st).events =
        st.events ++ progressEvents t (st.current + 1) l.length := by
  induction l with
  | nil => intro i st; simp [processRows, progressEvents]
  | cons r rs ih =>
    intro i st
    simp only [processRows, List.length_cons, ih, processRow_events, processRow_current,
      progressEvents_succ]
    simp

theorem processRows_count (t : ℕ) (n : String) (l : List Row) :
    ∀ (i : ℕ) (st : LoopState),
      (processRows t n i l st).inserted + (processRows t n i l st).skipped.length =
        st.inserted + st.skipped.length + l.length := by
  induction l with
  | nil => intro i st; rfl
  | cons r rs ih =>
    intro i st
    simp only [processRows, List.length_cons, ih, processRow_count]
    omega

theorem processSheet_current (t : ℕ) (s : Sheet) (st : LoopState) :
    (processSheet t s st).current =
      st.current + (if sheetMatches s then s.rows.length else 0) := by
  simp only [processSheet]
  split
  · exact processRows_current t s.name s.rows 0 st
  · simp

theorem processSheet_events (t : ℕ) (s : Sheet) (st : LoopState) :
    (processSheet t s st).events =
      st.events ++ progressEvents t (st.current + 1)
        (if sheetMatches s then s.rows.length else 0) := by
  simp only [processSheet]
  split
  · exact processRows_events t s.name s.rows 0 st
  · simp [progressEvents]

theorem processSheet_count (t : ℕ) (s : Sheet) (st : LoopState) :
    (processSheet t s st).inserted + (processSheet t s st).skipped.length =
      st.inserted + st.skipped.length + (if sheetMatches s then s.rows.length else 0) := by
  simp only [processSheet]
  split
  · exact processRows_count t s.name s.rows 0 st
  · simp

theorem processSheets_current (t : ℕ) (sheets : List Sheet) :
    ∀ st : LoopState,
      (processSheets t sheets st).current = st.current + totalCount sheets := by
  induction sheets with
  | nil => intro st; rfl
  | cons s rest ih =>
    intro st
    simp only [processSheets, totalCount, ih, processSheet_current]
    omega

theorem processSheets_events (t : ℕ) (sheets : List Sheet) :
    ∀ st : LoopState,
      (processSheets t sheets st).events =
        st.events ++ progressEvents t (st.current + 1) (totalCount sheets) := by
  induction sheets with
  | nil => intro st; simp [processSheets, progressEvents, totalCount]
  | cons s rest ih =>
    intro st
    simp only [processSheets, totalCount, ih, processSheet_events, processSheet_current,
      List.append_assoc]
    rw [show st.current + (if sheetMatches s then s.rows.length else 0) + 1
        = st.current + 1 + (if sheetMatches s then s.rows.length else 0) by omega,
      progressEvents_append]

theorem processSheets_count (t : ℕ) (sheets : List Sheet) :
    ∀ st : LoopState,
      (processSheets t sheets st).inserted + (processSheets t sheets st).skipped.length =
        st.inserted + st.skipped.length + totalCount sheets := by
  induction sheets with
  | nil => intro st; rfl
  | cons s rest ih =>
    intro st
    simp only [processSheets, totalCount, ih, processSheet_count]
    omega

/-- Every event of one task run: the progress events for currents
`1 … totalCount`, then the completed event. -/
theorem process_excel_task_events (db : List UserRec) (sheets : List Sheet) :
    (process_excel_task db sheets).events =
      progressEvents (totalCount sheets) 1 (totalCount sheets) ++
        [Event.completed (process_excel_task db sheets).inserted
          (process_excel_task db sheets).skipped] := by
  simp only [process_excel_task, processSheets_events]
  simp

theorem process_excel_task_count (db : List UserRec) (sheets : List Sheet) :
    (process_excel_task db sheets).inserted +
      (process_excel_task db sheets).skipped.length = totalCount sheets := by
  have h := processSheets_count (totalCount sheets) sheets ⟨0, 0, [], ⟨db, []⟩, []⟩
  simp only [process_excel_task]
  simpa using h

theorem mem_progressEvents {t a len c t' p : ℕ}
    (h : Event.progress c t' p ∈ progressEvents t a len) :
    t' = t ∧ p = pyPercent c t ∧ a ≤ c ∧ c < a + len := by
  simp only [progressEvents, List.mem_map] at h
  obtain ⟨x, hx, he⟩ := h
  injection he with h1 h2 h3
  subst h1; subst h2
  rw [List.mem_range'] at hx
  obtain ⟨j, hj, rfl⟩ := hx
  subst h3
  omega

/-- The successive `current` figures of the progress events of an event
list, in publication order. -/
def eventCurrents : List Event → List ℕ
  | [] => []
  | Event.progress c _ _ :: rest => c :: eventCurrents rest
  | Event.completed _ _ :: rest => eventCurrents rest

theorem eventCurrents_append (xs ys : List Event) :
    eventCurrents (xs ++ ys) = eventCurrents xs ++ eventCurrents ys := by
  induction xs with
  | nil => rfl
  | cons e rest ih => cases e <;> simp [eventCurrents, ih]

theorem eventCurrents_progressEvents (t len : ℕ) :
    ∀ a : ℕ, eventCurrents (progressEvents t a len) = List.range' a len := by
  induction len with
  | zero => intro a; rfl
  | succ k ih =>
    intro a
    rw [progressEvents_succ, List.range'_succ]
    simp [eventCurrents, ih]

/-! ### Demonstration inputs (used by witnesses and counterexamples) -/

/-- The two-row sheet of the spec §8 scenario. -/
def demoSheet : Sheet :=
  ⟨"Hoja1", ["Username", "Email", "Password"],
   [⟨some "ana", some "ana@x.com", some "p1"⟩,
    ⟨some "", some "b@x.com", some "p2"⟩]⟩

/-- A sheet whose columns do not include the required set. -/
def noMatchSheet : Sheet :=
  ⟨"Bad", ["nombre", "correo"], [⟨some "x", some "y", some "z"⟩]⟩

/-- A matching sheet with a single row and an empty username cell. -/
def incompleteRowSheet : Sheet :=
  ⟨"Hoja1", ["username", "email", "password"],
   [⟨some "", some "b@x.com", some "p2"⟩]⟩

/-- A matching sheet whose single row is entirely empty. -/
def emptyRowSheet : Sheet :=
  ⟨"E", ["username", "email", "password"], [⟨none, none, none⟩]⟩

/-- A matching sheet with three rows sharing one email. -/
def tripleEmailSheet : Sheet :=
  ⟨"S", ["username", "email", "password"],
   [⟨some "a", some "e@x.com", some "p"⟩,
    ⟨some "b", some "e@x.com", some "q"⟩,
    ⟨some "c", some "e@x.com", some "r"⟩]⟩

/-- A matching sheet with 100 valid rows with pairwise distinct
emails. -/
def hundredRowSheet : Sheet :=
  ⟨"B", ["username", "email", "password"],
   (List.range 100).map (fun j =>
     ⟨some ("u" ++ toString j), some ("e" ++ toString j ++ "@x.com"), some "p"⟩)⟩

/-! ### Claim theorems -/

/-- Claim C1: in every import run, every PROGRESS event (in particular
the first one) carries `total = N`, the number of matching rows counted
by the pre-scan across the selected sheets, and in the final result
`inserted + length skipped = N`. -/
theorem c1_total_and_final_count (db : List UserRec) (sheets : List Sheet) :
    (0 < totalCount sheets →
      (process_excel_task db sheets).events.head? =
        some (Event.progress 1 (totalCount sheets) (pyPercent 1 (totalCount sheets)))) ∧
    (∀ c t p : ℕ, Event.progress c t p ∈ (process_excel_task db sheets).events →
      t = totalCount sheets) ∧
    (process_excel_task db sheets).inserted +
      (process_excel_task db sheets).skipped.length = totalCount sheets := by
  refine ⟨?_, ?_, process_excel_task_count db sheets⟩
  · intro hN
    rw [process_excel_task_events]
    obtain ⟨k, hk⟩ : ∃ k, totalCount sheets = k + 1 := ⟨totalCount sheets - 1, by omega⟩
    rw [hk, progressEvents_succ]
    rfl
  · intro c t p hmem
    rw [process_excel_task_events] at hmem
    rcases List.mem_append.1 hmem with h | h
    · exact (mem_progressEvents h).1
    · simp at h

/-- Witness for C1 at the spec §8 scenario sheet. -/
theorem c1_total_and_final_count_witness :
    0 < totalCount [demoSheet] ∧
    (process_excel_task [] [demoSheet]).events.head? =
      some (Event.progress 1 (totalCount [demoSheet]) (pyPercent 1 (totalCount [demoSheet]))) ∧
    (process_excel_task [] [demoSheet]).inserted +
      (process_excel_task [] [demoSheet]).skipped.length = totalCount [demoSheet] := by
  have h := c1_total_and_final_count [] [demoSheet]
  exact ⟨by decide, h.1 (by decide), h.2.2⟩

/-- Claim C3: a row with an empty username, email or password after
trimming is skipped with reason `Campos incompletos`, and neither the
session (staged or committed storage) nor the inserted counter changes
for that row. -/
theorem c3_incomplete_fields_skip (t : ℕ) (n : String) (i : ℕ) (r : Row) (st : LoopState)
    (h : rowUsername r = "" ∨ rowEmail r = "" ∨ rowPassword r = "") :
    (processRow t n i r st).skipped = st.skipped ++ [⟨i + 1, n, "Campos incompletos"⟩] ∧
    (processRow t n i r st).session = st.session ∧
    (processRow t n i r st).inserted = st.inserted := by
  have hc : (rowUsername r = "" || rowEmail r = "" || rowPassword r = "") = true := by
    rcases h with h | h | h <;> simp [h]
  simp only [processRow, hc, if_true]
  simp

/-- Witness for C3: the incomplete second row of the spec §8 scenario. -/
theorem c3_incomplete_fields_skip_witness :
    (rowUsername ⟨some "", some "b@x.com", some "p2"⟩ = "" ∨
      rowEmail ⟨some "", some "b@x.com", some "p2"⟩ = "" ∨
      rowPassword ⟨some "", some "b@x.com", some "p2"⟩ = "") ∧
    (processRow 2 "Hoja1" 1 ⟨some "", some "b@x.com", some "p2"⟩
        ⟨1, 1, [], ⟨[⟨"ana", "ana@x.com", "bcrypt$p1"⟩], []⟩, []⟩).skipped =
      [⟨2, "Hoja1", "Campos incompletos"⟩] := by
  have h := c3_incomplete_fields_skip 2 "Hoja1" 1 ⟨some "", some "b@x.com", some "p2"⟩
    ⟨1, 1, [], ⟨[⟨"ana", "ana@x.com", "bcrypt$p1"⟩], []⟩, []⟩ (Or.inl (by decide))
  exact ⟨Or.inl (by decide), h.1⟩

/-- Claim C4: the `current` figures of the published PROGRESS events of
one run are strictly increasing, and every published `current` is at
most the published `total`. -/
theorem c4_current_monotone (db : List UserRec) (sheets : List Sheet) :
    (eventCurrents (process_excel_task db sheets).events).Pairwise (· < ·) ∧
    (∀ c t p : ℕ, Event.progress c t p ∈ (process_excel_task db sheets).events →
      c ≤ t) := by
  constructor
  · rw [process_excel_task_events, eventCurrents_append, eventCurrents_progressEvents]
    simp only [eventCurrents, List.append_nil]
    exact List.pairwise_lt_range' 1 (totalCount sheets)
  · intro c t p hmem
    rw [process_excel_task_events] at hmem
    rcases List.mem_append.1 hmem with h | h
    · obtain ⟨ht, hp, hac, hlt⟩ := mem_progressEvents h
      omega
    · simp at h

/-- Witness for C4 at the spec §8 scenario sheet. -/
theorem c4_current_monotone_witness :
    Event.progress 2 2 100 ∈ (process_excel_task [] [demoSheet]).events ∧ 2 ≤ 2 := by
  have h := (c4_current_monotone [] [demoSheet]).2 2 2 100
  exact ⟨by decide, h (by decide)⟩

/-- Claim C5: when no selected sheet matches the required columns (or
every matching sheet is empty), `totalCount = 0`, the run publishes no
PROGRESS event at all — so the percent expression, whose denominator is
`total`, is never evaluated — and completes at once with the SUCCESS
payload `inserted = 0`, `skipped = []`; moreover in every run each
published PROGRESS event has `total > 0`, so the division in the
percent computation is always by a positive number. -/
theorem c5_zero_total_guard (db : List UserRec) (sheets : List Sheet) :
    (totalCount sheets = 0 →
      (process_excel_task db sheets).events = [Event.completed 0 []] ∧
      (process_excel_task db sheets).inserted = 0 ∧
      (process_excel_task db sheets).skipped = [] ∧
      (process_excel_task db sheets).status = "completed") ∧
    (∀ c t p : ℕ, Event.progress c t p ∈ (process_excel_task db sheets).events →
      0 < t) := by
  constructor
  · intro hN
    have hcount := process_excel_task_count db sheets
    rw [hN] at hcount
    have hins : (process_excel_task db sheets).inserted = 0 := by omega
    have hlen : (process_excel_task db sheets).skipped.length = 0 := by omega
    have hskip : (process_excel_task db sheets).skipped = [] :=
      List.length_eq_zero.mp hlen
    refine ⟨?_, hins, hskip, rfl⟩
    rw [process_excel_task_events, hN, hins, hskip]
    rfl
  · intro c t p hmem
    rw [process_excel_task_events] at hmem
    rcases List.mem_append.1 hmem with h | h
    · obtain ⟨ht, hp, hac, hlt⟩ := mem_progressEvents h
      omega
    · simp at h

/-- Witness for C5 at a workbook whose only sheet lacks the required
columns. -/
theorem c5_zero_total_guard_witness :
    totalCount [noMatchSheet] = 0 ∧
    (process_excel_task [] [noMatchSheet]).events = [Event.completed 0 []] ∧
    (process_excel_task [] [noMatchSheet]).inserted = 0 := by
  have h := (c5_zero_total_guard [] [noMatchSheet]).1 (by decide)
  exact ⟨by decide, h.1, h.2.1⟩

/-! ### Session lemmas for duplicate detection -/

/-- The email `e` is visible to `queryByEmail` in session `s`. -/
def sessionHas (s : Session) (e : String) : Prop :=
  ∃ u ∈ s.committed ++ s.pending, u.email = e

theorem queryByEmail_isSome_iff (s : Session) (e : String) :
    (queryByEmail s e).isSome = true ↔ sessionHas s e := by
  simp only [queryByEmail, sessionHas, List.find?_isSome, List.mem_append, beq_iff_eq]

theorem sessionHas_add (s : Session) (u : UserRec) (e : String) (h : sessionHas s e) :
    sessionHas (sessionAdd s u) e := by
  obtain ⟨v, hv, he⟩ := h
  refine ⟨v, ?_, he⟩
  simp only [sessionAdd, List.mem_append] at hv ⊢
  tauto

theorem sessionHas_add_self (s : Session) (u : UserRec) :
    sessionHas (sessionAdd s u) u.email := by
  refine ⟨u, ?_, rfl⟩
  simp [sessionAdd]

theorem sessionHas_commit (s : Session) (e : String) :
    sessionHas (sessionCommit s) e ↔ sessionHas s e := by
  simp [sessionCommit, sessionHas]

theorem processRow_sessionHas_mono (t : ℕ) (n : String) (i : ℕ) (r : Row)
    (st : LoopState) (e : String) (h : sessionHas st.session e) :
    sessionHas (processRow t n i r st).session e := by
  simp only [processRow]
  split
  · exact h
  · split
    · exact h
    · dsimp only
      split
      · exact (sessionHas_commit _ _).2 (sessionHas_add _ _ _ h)
      · exact sessionHas_add _ _ _ h

theorem processRow_sessionHas_new (t : ℕ) (n : String) (i : ℕ) (r : Row)
    (st : LoopState) (hv : validRow r) :
    sessionHas (processRow t n i r st).session (rowEmail r) := by
  obtain ⟨h1, h2, h3⟩ := hv
  have hc : (rowUsername r = "" || rowEmail r = "" || rowPassword r = "") = false := by
    simp [h1, h2, h3]
  simp only [processRow, hc, Bool.false_eq_true, if_false]
  split
  · rename_i hq
    exact (queryByEmail_isSome_iff _ _).1 hq
  · dsimp only
    split
    · exact (sessionHas_commit _ _).2 (sessionHas_add_self _ _)
    · exact sessionHas_add_self _ _

theorem processRows_sessionHas_mono (t : ℕ) (n : String) (l : List Row) :
    ∀ (i : ℕ) (st : LoopState) (e : String), sessionHas st.session e →
      sessionHas (processRows t n i l st).session e := by
  induction l with
  | nil => intro i st e h; exact h
  | cons x xs ih =>
    intro i st e h
    exact ih (i + 1) _ e (processRow_sessionHas_mono t n i x st e h)

theorem processRows_sessionHas_new (t : ℕ) (n : String) (l : List Row) (r : Row)
    (hr : r ∈ l) (hv : validRow r) :
    ∀ (i : ℕ) (st : LoopState),
      sessionHas (processRows t n i l st).session (rowEmail r) := by
  induction l with
  | nil => cases hr
  | cons x xs ih =>
    intro i st
    rcases List.mem_cons.1 hr with rfl | hmem
    · exact processRows_sessionHas_mono t n xs (i + 1) _ _
        (processRow_sessionHas_new t n i r st hv)
    · exact ih hmem (i + 1) _

theorem processSheet_sessionHas_mono (t : ℕ) (s : Sheet) (st : LoopState)
    (e : String) (h : sessionHas st.session e) :
    sessionHas (processSheet t s st).session e := by
  simp only [processSheet]
  split
  · exact processRows_sessionHas_mono t s.name s.rows 0 st e h
  · exact h

theorem processSheets_sessionHas_mono (t : ℕ) (sheets : List Sheet) :
    ∀ (st : LoopState) (e : String), sessionHas st.session e →
      sessionHas (processSheets t sheets st).session e := by
  induction sheets with
  | nil => intro st e h; exact h
  | cons s rest ih =>
    intro st e h
    exact ih _ e (processSheet_sessionHas_mono t s st e h)

theorem processSheets_sessionHas_new (t : ℕ) (sheets : List Sheet) (s : Sheet)
    (hs : s ∈ sheets) (hm : sheetMatches s = true) (r : Row) (hr : r ∈ s.rows)
    (hv : validRow r) :
    ∀ st : LoopState, sessionHas (processSheets t sheets st).session (rowEmail r) := by
  induction sheets with
  | nil => cases hs
  | cons x rest ih =>
    intro st
    rcases List.mem_cons.1 hs with rfl | hmem
    · refine processSheets_sessionHas_mono t rest _ _ ?_
      simp only [processSheet, hm, if_true]
      exact processRows_sessionHas_new t s.name s.rows r hr hv 0 st
    · exact ih hmem _

/-- After one full run, the final database contains every valid row's
email (rows skipped as duplicates included, since the matching record
was already visible). -/
theorem run_db_has (db : List UserRec) (sheets : List Sheet) (s : Sheet)
    (hs : s ∈ sheets) (hm : sheetMatches s = true) (r : Row) (hr : r ∈ s.rows)
    (hv : validRow r) :
    sessionHas ⟨(process_excel_task db sheets).db, []⟩ (rowEmail r) := by
  have h := processSheets_sessionHas_new (totalCount sheets) sheets s hs hm r hr hv
    ⟨0, 0, [], ⟨db, []⟩, []⟩
  have h2 := (sessionHas_commit
    (processSheets (totalCount sheets) sheets ⟨0, 0, [], ⟨db, []⟩, []⟩).session _).2 h
  simpa [process_excel_task, sessionCommit, sessionHas] using h2

/-- A valid row whose email is already visible in the session is skipped
with reason `Duplicado` and changes nothing else but `current` and the
published events. -/
theorem processRow_dup (t : ℕ) (n : String) (i : ℕ) (r : Row) (st : LoopState)
    (hv : validRow r) (hh : sessionHas st.session (rowEmail r)) :
    processRow t n i r st =
      { st with
        current := st.current + 1,
        events := st.events ++
          [Event.progress (st.current + 1) t (pyPercent (st.current + 1) t)],
        skipped := st.skipped ++ [⟨i + 1, n, "Duplicado"⟩] } := by
  obtain ⟨h1, h2, h3⟩ := hv
  have hc : (rowUsername r = "" || rowEmail r = "" || rowPassword r = "") = false := by
    simp [h1, h2, h3]
  have hq : (queryByEmail st.session (rowEmail r)).isSome = true :=
    (queryByEmail_isSome_iff _ _).2 hh
  simp only [processRow, hc, Bool.false_eq_true, if_false, hq, if_true]

/-- A valid row whose email is not yet visible is hashed and staged, and
the chunk is committed when the insert counter reaches a multiple of
50. -/
theorem processRow_insert (t : ℕ) (n : String) (i : ℕ) (r : Row) (st : LoopState)
    (hv : validRow r) (hq : ¬ sessionHas st.session (rowEmail r)) :
    processRow t n i r st =
      { st with
        current := st.current + 1,
        events := st.events ++
          [Event.progress (st.current + 1) t (pyPercent (st.current + 1) t)],
        inserted := st.inserted + 1,
        session :=
          if (st.inserted + 1) % 50 = 0 then
            sessionCommit (sessionAdd st.session
              ⟨rowUsername r, rowEmail r, hashpw (rowPassword r)⟩)
          else
            sessionAdd st.session
              ⟨rowUsername r, rowEmail r, hashpw (rowPassword r)⟩ } := by
  obtain ⟨h1, h2, h3⟩ := hv
  have hc : (rowUsername r = "" || rowEmail r = "" || rowPassword r = "") = false := by
    simp [h1, h2, h3]
  have hq' : (queryByEmail st.session (rowEmail r)).isSome = false := by
    rw [Bool.eq_false_iff]
    intro hs
    exact hq ((queryByEmail_isSome_iff _ _).1 hs)
  simp only [processRow, hc, Bool.false_eq_true, if_false, hq', if_true]

/-- If every row of the list is valid and already visible in the current
session, the whole run over the list inserts nothing, leaves the session
unchanged and skips every row as `Duplicado`. -/
theorem processRows_all_dup (t : ℕ) (n : String) (l : List Row) :
    ∀ (i : ℕ) (st : LoopState),
      (∀ r ∈ l, validRow r) →
      (∀ r ∈ l, sessionHas st.session (rowEmail r)) →
      (processRows t n i l st).inserted = st.inserted ∧
      (processRows t n i l st).session = st.session ∧
      (processRows t n i l st).skipped.length = st.skipped.length + l.length ∧
      (∀ k ∈ (processRows t n i l st).skipped,
        k ∈ st.skipped ∨ k.reason = "Duplicado") := by
  induction l with
  | nil =>
    intro i st _ _
    exact ⟨rfl, rfl, rfl, fun k hk => Or.inl hk⟩
  | cons x xs ih =>
    intro i st hv hh
    have hstep := processRow_dup t n i x st (hv x (List.mem_cons_self x xs))
      (hh x (List.mem_cons_self x xs))
    rw [processRows, hstep]
    have hrec := ih (i + 1)
      { st with
        current := st.current + 1,
        events := st.events ++
          [Event.progress (st.current + 1) t (pyPercent (st.current + 1) t)],
        skipped := st.skipped ++ [⟨i + 1, n, "Duplicado"⟩] }
      (fun r hr => hv r (List.mem_cons_of_mem x hr))
      (fun r hr => hh r (List.mem_cons_of_mem x hr))
    refine ⟨hrec.1, hrec.2.1, ?_, ?_⟩
    · rw [hrec.2.2.1]
      simp only [List.length_append, List.length_cons, List.length_nil]
      omega
    · intro k hk
      rcases hrec.2.2.2 k hk with hmem | hdup
      · rcases List.mem_append.1 hmem with hmem' | hmem'
        · exact Or.inl hmem'
        · right
          simp only [List.mem_cons, List.not_mem_nil, or_false] at hmem'
          rw [hmem']
      · exact Or.inr hdup

/-- The all-duplicates property lifted over one sheet. -/
theorem processSheet_all_dup (t : ℕ) (s : Sheet) (st : LoopState)
    (hv : sheetMatches s = true → ∀ r ∈ s.rows, validRow r)
    (hh : sheetMatches s = true → ∀ r ∈ s.rows, sessionHas st.session (rowEmail r)) :
    (processSheet t s st).inserted = st.inserted ∧
    (processSheet t s st).session = st.session ∧
    (processSheet t s st).skipped.length =
      st.skipped.length + (if sheetMatches s then s.rows.length else 0) ∧
    (∀ k ∈ (processSheet t s st).skipped, k ∈ st.skipped ∨ k.reason = "Duplicado") := by
  simp only [processSheet]
  split
  · rename_i hm
    simpa using processRows_all_dup t s.name s.rows 0 st (hv hm) (hh hm)
  · exact ⟨rfl, rfl, by simp, fun k hk => Or.inl hk⟩

/-- The all-duplicates property lifted over the sheet loop. -/
theorem processSheets_all_dup (t : ℕ) (sheets : List Sheet) :
    ∀ st : LoopState,
      (∀ s ∈ sheets, sheetMatches s = true → ∀ r ∈ s.rows, validRow r) →
      (∀ s ∈ sheets, sheetMatches s = true → ∀ r ∈ s.rows,
        sessionHas st.session (rowEmail r)) →
      (processSheets t sheets st).inserted = st.inserted ∧
      (processSheets t sheets st).session = st.session ∧
      (processSheets t sheets st).skipped.length =
        st.skipped.length + totalCount sheets ∧
      (∀ k ∈ (processSheets t sheets st).skipped,
        k ∈ st.skipped ∨ k.reason = "Duplicado") := by
  induction sheets with
  | nil =>
    intro st _ _
    exact ⟨rfl, rfl, by simp [totalCount, processSheets], fun k hk => Or.inl hk⟩
  | cons s rest ih =>
    intro st hv hh
    have hsheet := processSheet_all_dup t s st
      (hv s (List.mem_cons_self s rest))
      (hh s (List.mem_cons_self s rest))
    have hrec := ih (processSheet t s st)
      (fun x hx => hv x (List.mem_cons_of_mem s hx))
      (fun x hx hm r hr => by
        rw [hsheet.2.1]
        exact hh x (List.mem_cons_of_mem s hx) hm r hr)
    rw [processSheets]
    refine ⟨hrec.1.trans hsheet.1, hrec.2.1.trans hsheet.2.1, ?_, ?_⟩
    · rw [hrec.2.2.1, hsheet.2.2.1, totalCount]
      omega
    · intro k hk
      rcases hrec.2.2.2 k hk with hmem | hdup
      · exact hsheet.2.2.2 k hmem
      · exact Or.inr hdup

/-- Counterexample to claim C2 as stated: for the one-row file whose row
has an empty username, the second run records the row as
`Campos incompletos` again, not as `Duplicado` (the incomplete-field
check fires before the duplicate check on every run). -/
theorem c2_counterexample :
    (process_excel_task (process_excel_task [] [incompleteRowSheet]).db
      [incompleteRowSheet]).inserted = 0 ∧
    (process_excel_task (process_excel_task [] [incompleteRowSheet]).db
      [incompleteRowSheet]).skipped = [⟨1, "Hoja1", "Campos incompletos"⟩] ∧
    ¬ (∀ k ∈ (process_excel_task (process_excel_task [] [incompleteRowSheet]).db
        [incompleteRowSheet]).skipped, k.reason = "Duplicado") := by
  refine ⟨by decide, by decide, ?_⟩
  intro h
  have := h ⟨1, "Hoja1", "Campos incompletos"⟩ (by decide)
  simp at this

/-- Claim C2 (amended): for a file in which every row of every matching
sheet has nonempty username, email and password after trimming, running
`process_excel_task` twice (with no other storage changes in between)
yields `inserted = 0` on the second run and every row of the second run
recorded in `skipped` with the `Duplicado` reason, because
de-duplication keys on email.  (As stated the claim fails for files
containing incomplete rows, which are re-skipped as
`Campos incompletos`.) -/
theorem c2_second_run_all_duplicates (db : List UserRec) (sheets : List Sheet)
    (hv : ∀ s ∈ sheets, sheetMatches s = true → ∀ r ∈ s.rows, validRow r) :
    (process_excel_task (process_excel_task db sheets).db sheets).inserted = 0 ∧
    (process_excel_task (process_excel_task db sheets).db sheets).skipped.length =
      totalCount sheets ∧
    (∀ k ∈ (process_excel_task (process_excel_task db sheets).db sheets).skipped,
      k.reason = "Duplicado") := by
  set db' := (process_excel_task db sheets).db with hdb'
  have hh : ∀ s ∈ sheets, sheetMatches s = true → ∀ r ∈ s.rows,
      sessionHas (⟨db', []⟩ : Session) (rowEmail r) :=
    fun s hs hm r hr => run_db_has db sheets s hs hm r hr (hv s hs hm r hr)
  have hmain := processSheets_all_dup (totalCount sheets) sheets
    ⟨0, 0, [], ⟨db', []⟩, []⟩ hv hh
  simp only [process_excel_task]
  refine ⟨by simpa using hmain.1, by simpa using hmain.2.2.1, ?_⟩
  intro k hk
  rcases hmain.2.2.2 k (by simpa using hk) with hmem | hdup
  · cases hmem
  · exact hdup

/-- Witness for the amended C2 at a two-row valid sheet. -/
theorem c2_second_run_all_duplicates_witness :
    (∀ s ∈ [(⟨"V", ["username", "email", "password"],
        [⟨some "ana", some "ana@x.com", some "p1"⟩,
         ⟨some "bob", some "bob@x.com", some "p2"⟩]⟩ : Sheet)],
      sheetMatches s = true → ∀ r ∈ s.rows, validRow r) ∧
    (process_excel_task (process_excel_task []
      [(⟨"V", ["username", "email", "password"],
        [⟨some "ana", some "ana@x.com", some "p1"⟩,
         ⟨some "bob", some "bob@x.com", some "p2"⟩]⟩ : Sheet)]).db
      [(⟨"V", ["username", "email", "password"],
        [⟨some "ana", some "ana@x.com", some "p1"⟩,
         ⟨some "bob", some "bob@x.com", some "p2"⟩]⟩ : Sheet)]).inserted = 0 := by
  have h := c2_second_run_all_duplicates []
    [(⟨"V", ["username", "email", "password"],
      [⟨some "ana", some "ana@x.com", some "p1"⟩,
       ⟨some "bob", some "bob@x.com", some "p2"⟩]⟩ : Sheet)]
    (by decide)
  exact ⟨by decide, h.1⟩

/-- Claim C10: three rows share the email `e@x.com`, none of which is in
storage beforehand.  Only the first is inserted; rows two and three are
skipped as `Duplicado` although the first row's record is merely staged,
never committed before those checks run (a single commit of the one
staged insert happens only at the very end, `1 % 50 ≠ 0`): with the
session's autoflush, `queryByEmail` sees rows staged earlier in the same
run, not only previously committed storage. -/
theorem c10_staged_duplicates (db : List UserRec)
    (hdb : ∀ u ∈ db, u.email ≠ "e@x.com") :
    (process_excel_task db [tripleEmailSheet]).inserted = 1 ∧
    (process_excel_task db [tripleEmailSheet]).skipped =
      [⟨2, "S", "Duplicado"⟩, ⟨3, "S", "Duplicado"⟩] ∧
    (process_excel_task db [tripleEmailSheet]).db =
      db ++ [⟨"a", "e@x.com", "bcrypt$p"⟩] := by
  have hq1 : ¬ sessionHas (⟨db, []⟩ : Session)
      (rowEmail ⟨some "a", some "e@x.com", some "p"⟩) := by
    rintro ⟨u, hu, hue⟩
    simp only [List.append_nil] at hu
    exact hdb u hu hue
  have h1 : processRow 3 "S" 0 ⟨some "a", some "e@x.com", some "p"⟩
      ⟨0, 0, [], ⟨db, []⟩, []⟩ =
      ⟨1, 1, [], ⟨db, [⟨"a", "e@x.com", "bcrypt$p"⟩]⟩, [Event.progress 1 3 33]⟩ := by
    rw [processRow_insert 3 "S" 0 _ _ (by decide) hq1]
    dsimp only
    rw [if_neg (by decide : ¬ (0 + 1) % 50 = 0)]
    rfl
  have hh2 : sessionHas (⟨db, [⟨"a", "e@x.com", "bcrypt$p"⟩]⟩ : Session)
      (rowEmail ⟨some "b", some "e@x.com", some "q"⟩) :=
    ⟨⟨"a", "e@x.com", "bcrypt$p"⟩, by simp, rfl⟩
  have h2 : processRow 3 "S" 1 ⟨some "b", some "e@x.com", some "q"⟩
      ⟨1, 1, [], ⟨db, [⟨"a", "e@x.com", "bcrypt$p"⟩]⟩, [Event.progress 1 3 33]⟩ =
      ⟨2, 1, [⟨2, "S", "Duplicado"⟩], ⟨db, [⟨"a", "e@x.com", "bcrypt$p"⟩]⟩,
       [Event.progress 1 3 33, Event.progress 2 3 66]⟩ := by
    rw [processRow_dup 3 "S" 1 _ _ (by decide) hh2]
    dsimp only
    rfl
  have hh3 : sessionHas (⟨db, [⟨"a", "e@x.com", "bcrypt$p"⟩]⟩ : Session)
      (rowEmail ⟨some "c", some "e@x.com", some "r"⟩) :=
    ⟨⟨"a", "e@x.com", "bcrypt$p"⟩, by simp, rfl⟩
  have h3 : processRow 3 "S" 2 ⟨some "c", some "e@x.com", some "r"⟩
      ⟨2, 1, [⟨2, "S", "Duplicado"⟩], ⟨db, [⟨"a", "e@x.com", "bcrypt$p"⟩]⟩,
       [Event.progress 1 3 33, Event.progress 2 3 66]⟩ =
      ⟨3, 1, [⟨2, "S", "Duplicado"⟩, ⟨3, "S", "Duplicado"⟩],
       ⟨db, [⟨"a", "e@x.com", "bcrypt$p"⟩]⟩,
       [Event.progress 1 3 33, Event.progress 2 3 66, Event.progress 3 3 100]⟩ := by
    rw [processRow_dup 3 "S" 2 _ _ (by decide) hh3]
    dsimp only
    rfl
  have hrun : processSheets 3 [tripleEmailSheet] ⟨0, 0, [], ⟨db, []⟩, []⟩ =
      ⟨3, 1, [⟨2, "S", "Duplicado"⟩, ⟨3, "S", "Duplicado"⟩],
       ⟨db, [⟨"a", "e@x.com", "bcrypt$p"⟩]⟩,
       [Event.progress 1 3 33, Event.progress 2 3 66, Event.progress 3 3 100]⟩ := by
    simp only [processSheets, processSheet, tripleEmailSheet]
    rw [if_pos (by decide :
      sheetMatches ⟨"S", ["username", "email", "password"],
        [⟨some "a", some "e@x.com", some "p"⟩, ⟨some "b", some "e@x.com", some "q"⟩,
         ⟨some "c", some "e@x.com", some "r"⟩]⟩ = true)]
    simp only [processRows]
    rw [h1, h2, h3]
  have htot : totalCount [tripleEmailSheet] = 3 := rfl
  refine ⟨?_, ?_, ?_⟩
  · simp only [process_excel_task, htot, hrun]
  · simp only [process_excel_task, htot, hrun]
  · simp only [process_excel_task, htot, hrun]
    rfl

/-- Witness for C10 starting from empty storage. -/
theorem c10_staged_duplicates_witness :
    (∀ u ∈ ([] : List UserRec), u.email ≠ "e@x.com") ∧
    (process_excel_task [] [tripleEmailSheet]).inserted = 1 ∧
    (process_excel_task [] [tripleEmailSheet]).skipped =
      [⟨2, "S", "Duplicado"⟩, ⟨3, "S", "Duplicado"⟩] := by
  have h := c10_staged_duplicates [] (by decide)
  exact ⟨by decide, h.1, h.2.1⟩

/-- Counterexample to claim C6 as stated: for a matching sheet whose
single row is entirely empty, the pre-scan of `process_excel_task`
counts `total = 1` although the sheet has `0` non-empty rows — the
importer performs no `dropna`, so entirely-empty rows are NOT
excluded from its total (only the preview task drops them). -/
theorem c6_counterexample :
    totalCount [emptyRowSheet] = 1 ∧
    (emptyRowSheet.rows.filter (fun r => !rowAllEmpty r)).length = 0 := by
  decide

/-- Claim C6 (amended): entirely-empty rows are dropped before counting
only in `process_excel_preview_task` — its `total_rows` plus the number
of entirely-empty rows is the sheet's row count — whereas the pre-scan
of `process_excel_task` counts every row of a matching sheet, empty ones
included. -/
theorem c6_preview_drops_empty_rows (s : Sheet) (hm : sheetMatches s = true) :
    previewTotalRows s + (s.rows.filter (fun r => rowAllEmpty r)).length =
      s.rows.length ∧
    totalCount [s] = s.rows.length := by
  constructor
  · have h := List.length_eq_length_filter_add (l := s.rows) (fun r => !rowAllEmpty r)
    simp only [previewTotalRows, Bool.not_not] at h ⊢
    omega
  · simp [totalCount, hm]

/-- Witness for the amended C6 at the all-empty one-row sheet. -/
theorem c6_preview_drops_empty_rows_witness :
    sheetMatches emptyRowSheet = true ∧
    previewTotalRows emptyRowSheet +
      (emptyRowSheet.rows.filter (fun r => rowAllEmpty r)).length =
      emptyRowSheet.rows.length ∧
    totalCount [emptyRowSheet] = emptyRowSheet.rows.length := by
  have h := c6_preview_drops_empty_rows emptyRowSheet (by decide)
  exact ⟨by decide, h.1, h.2⟩

set_option maxRecDepth 40000 in
/-- Counterexample to claim C7 as stated: at `current = 29`,
`total = 100` the task publishes percent `28`, while exact integer
division gives `floor(29 * 100 / 100) = 29` — Python evaluates
`int((29 / 100) * 100)` in binary64 floating point, where
`(29 / 100) * 100 = 28.999999999999996`. -/
theorem c7_counterexample :
    Event.progress 29 100 28 ∈ (process_excel_task [] [hundredRowSheet]).events ∧
    specPercent 29 100 = 29 ∧ (28 : ℕ) ≠ 29 := by
  refine ⟨?_, by decide, by decide⟩
  decide

/-- Claim C7 (amended): the percent published with every PROGRESS event
is `int((current / total) * 100)` evaluated in binary64 floating point
(`pyPercent`).  This agrees with exact floor division at the spec's
example `current = 1, total = 3` (both give 33) but not universally:
at `current = 29, total = 100` the float evaluation yields 28 while
exact floor division yields 29. -/
theorem c7_percent_is_float (db : List UserRec) (sheets : List Sheet) :
    (∀ c t p : ℕ, Event.progress c t p ∈ (process_excel_task db sheets).events →
      p = pyPercent c t) ∧
    pyPercent 1 3 = 33 ∧ specPercent 1 3 = 33 ∧
    pyPercent 29 100 = 28 ∧ specPercent 29 100 = 29 ∧
    ¬ (∀ c t : ℕ, 1 ≤ c → c ≤ t → pyPercent c t = specPercent c t) := by
  refine ⟨?_, by decide, by decide, by decide, by decide, ?_⟩
  · intro c t p hmem
    rw [process_excel_task_events] at hmem
    rcases List.mem_append.1 hmem with h | h
    · obtain ⟨ht, hp, _, _⟩ := mem_progressEvents h
      rw [ht, hp]
    · simp at h
  · intro h
    have h29 := h 29 100 (by decide) (by decide)
    rw [show pyPercent 29 100 = 28 by decide, show specPercent 29 100 = 29 by decide] at h29
    exact absurd h29 (by decide)

/-- Witness for the amended C7: the first progress event of the spec §8
scenario run carries the float-evaluated percent. -/
theorem c7_percent_is_float_witness :
    Event.progress 1 2 50 ∈ (process_excel_task [] [demoSheet]).events ∧
    (50 : ℕ) = pyPercent 1 2 := by
  have h := (c7_percent_is_float [] [demoSheet]).1 1 2 50
  exact ⟨by decide, h (by decide)⟩

/-! ### Broadcast resilience lemmas -/

theorem broadcastAux_no_fail (f : Conn → Bool) (l : List Conn)
    (h : ∀ c ∈ l, f c = false) :
    ∀ (st : ManagerState) (d : List Conn),
      broadcastAux f l st d = (st, d ++ l) := by
  induction l with
  | nil => intro st d; simp [broadcastAux]
  | cons x xs ih =>
    intro st d
    rw [broadcastAux, h x (List.mem_cons_self x xs)]
    simp only [Bool.false_eq_true, if_false]
    rw [ih (fun c hc => h c (List.mem_cons_of_mem x hc)) st (d ++ [x])]
    simp

theorem broadcastAux_single_bad (bad : Conn) (l : List Conn) :
    ∀ (st : ManagerState) (d : List Conn), bad ∈ l → l.Nodup →
      broadcastAux (fun c => c == bad) l st d =
        (disconnect st bad, d ++ l.filter (fun c => !(c == bad))) := by
  induction l with
  | nil => intro st d h; cases h
  | cons x xs ih =>
    intro st d hmem hnd
    by_cases hx : x = bad
    · subst hx
      have hxs : x ∉ xs := (List.nodup_cons.1 hnd).1
      rw [broadcastAux, if_pos (by simp)]
      rw [broadcastAux_no_fail (fun c => c == x) xs
        (fun c hc => by
          have : c ≠ x := fun he => hxs (he ▸ hc)
          simp [this]) (disconnect st x) d]
      simp only [List.filter_cons, beq_self_eq_true, Bool.not_true, Bool.false_eq_true,
        if_false]
      congr 1
      rw [List.filter_eq_self.2 (fun c hc => by
        have : c ≠ x := fun he => hxs (he ▸ hc)
        simp [this])]
    · rw [broadcastAux, if_neg (by simp [hx])]
      have hmem' : bad ∈ xs := by
        rcases List.mem_cons.1 hmem with h | h
        · exact absurd h.symm hx
        · exact h
      rw [ih st (d ++ [x]) hmem' (List.nodup_cons.1 hnd).2]
      simp [List.filter_cons, hx]

/-- Claim C8: if, among the registered connections (no duplicates), the
send to exactly one connection `bad` raises, `broadcast` still delivers
the message to every other connection registered at the start of the
broadcast (in registration order) and removes exactly the failing
connection from the registry. -/
theorem c8_broadcast_resilience (l : List Conn) (bad : Conn)
    (hnd : l.Nodup) (hmem : bad ∈ l) :
    broadcast (fun c => c == bad) ⟨l⟩ =
      (⟨l.erase bad⟩, l.filter (fun c => !(c == bad))) ∧
    (∀ c ∈ l, c ≠ bad → c ∈ (broadcast (fun c => c == bad) ⟨l⟩).2) := by
  have hb : broadcast (fun c => c == bad) ⟨l⟩ =
      (⟨l.erase bad⟩, l.filter (fun c => !(c == bad))) := by
    rw [broadcast, broadcastAux_single_bad bad l ⟨l⟩ [] hmem hnd]
    simp [disconnect]
  refine ⟨hb, ?_⟩
  intro c hc hne
  rw [hb]
  simp [List.mem_filter, hc, hne]

/-- Witness for C8 with three registered connections, the middle one
failing. -/
theorem c8_broadcast_resilience_witness :
    ([0, 1, 2] : List Conn).Nodup ∧ (1 : Conn) ∈ ([0, 1, 2] : List Conn) ∧
    broadcast (fun c => c == 1) ⟨[0, 1, 2]⟩ = (⟨[0, 2]⟩, [0, 2]) := by
  have h := (c8_broadcast_resilience [0, 1, 2] 1 (by decide) (by decide)).1
  exact ⟨by decide, by decide, by rw [h]; rfl⟩

/-! ### Relay lemmas -/

theorem relayStep_foldl {P : Type} (msgs : List (RedisMsg P)) :
    ∀ acc : List P,
      msgs.foldl relayStep acc =
        acc ++ (msgs.filter (fun m => m.msgType == "message")).filterMap
          (fun m => m.decoded) := by
  induction msgs with
  | nil => intro acc; simp
  | cons m rest ih =>
    intro acc
    rw [List.foldl_cons, ih]
    by_cases ht : m.msgType == "message"
    · simp only [List.filter_cons, ht, if_true]
      cases hd : m.decoded with
      | some d => simp [relayStep, ht, hd]
      | none => simp [relayStep, ht, hd]
    · simp only [List.filter_cons, ht, Bool.false_eq_true, if_false]
      simp [relayStep, ht]

/-- Claim C9: the relay forwards to broadcast exactly the decoded
payloads of the well-formed `message` items, verbatim and in order;
a malformed item (decode failure) broadcasts nothing and does not stop
the loop — the messages after it are processed exactly as if it were
absent. -/
theorem c9_relay_forwards_verbatim {P : Type}
    (msgs pre post : List (RedisMsg P)) (bad : RedisMsg P)
    (hbt : bad.msgType = "message") (hbd : bad.decoded = none) :
    relayRun msgs =
      (msgs.filter (fun m => m.msgType == "message")).filterMap (fun m => m.decoded) ∧
    relayRun (pre ++ bad :: post) = relayRun pre ++ relayRun post := by
  constructor
  · rw [relayRun, relayStep_foldl msgs []]
    simp
  · rw [relayRun, relayStep_foldl (pre ++ bad :: post) [], relayRun,
      relayStep_foldl pre [], relayRun, relayStep_foldl post []]
    simp [List.filter_append, List.filter_cons, hbt, List.filterMap_append, hbd]

/-- Witness for C9: a stream with a subscribe notice, a good message, a
malformed message and another good message broadcasts exactly the two
decoded payloads. -/
theorem c9_relay_forwards_verbatim_witness :
    (RedisMsg.mk "message" (none : Option ℕ)).msgType = "message" ∧
    (RedisMsg.mk "message" (none : Option ℕ)).decoded = none ∧
    relayRun [⟨"subscribe", some 0⟩, ⟨"message", some 7⟩,
      ⟨"message", (none : Option ℕ)⟩, ⟨"message", some 9⟩] = [7, 9] ∧
    relayRun ([⟨"message", some 7⟩] ++ ⟨"message", (none : Option ℕ)⟩ ::
      [⟨"message", some 9⟩]) =
      relayRun [(⟨"message", some 7⟩ : RedisMsg ℕ)] ++
        relayRun [(⟨"message", some 9⟩ : RedisMsg ℕ)] := by
  have h := c9_relay_forwards_verbatim
    [(⟨"subscribe", some 0⟩ : RedisMsg ℕ), ⟨"message", some 7⟩,
     ⟨"message", none⟩, ⟨"message", some 9⟩]
    [⟨"message", some 7⟩] [⟨"message", some 9⟩] ⟨"message", none⟩ rfl rfl
  refine ⟨rfl, rfl, ?_, h.2⟩
  rw [h.1]
  rfl

end ExcelImport
